import Mathlib

/-!
Formal model of the repository's two cores:

* `src/proplem3/revertCode.tsx` — the `WalletPage` balance pipeline:
  `getPriority` (lines 17-32), `sortedBalances` (lines 35-46),
  `formattedBalances` (lines 49-54) and `rows` (lines 56-67).
* `src/currency-swap/src/App.tsx` — the exchange-rate effect of
  `CurrencySwapForm` (lines 50-60).

JavaScript numbers are modelled as rationals (`ℚ`); the one place where the
code can produce `NaN` (multiplying an `undefined` price lookup by a number,
line 57 of `revertCode.tsx`) is modelled explicitly by the `JSNum` type.
`Array.prototype.sort` is required to be stable by ECMAScript 2019, so the
sort at lines 41-45 is modelled by the stable `List.mergeSort` with the
boolean ordering induced by the numeric comparator
`(lhs, rhs) => rightPriority - leftPriority` (keep `lhs` first iff the
comparator is `≤ 0`).  `toLocaleString` is a locale-dependent builtin; it is
modelled as an arbitrary pure formatting function `fmt : ℚ → String`, which
is all the verified properties depend on.
-/

/-- `interface WalletBalance` (revertCode.tsx lines 1-5). -/
structure WalletBalance where
  currency : String
  amount : ℚ
  blockchain : String
deriving DecidableEq, Repr

/-- `interface FormattedWalletBalance extends WalletBalance` (lines 7-9). -/
structure FormattedWalletBalance extends WalletBalance where
  formatted : String
deriving DecidableEq, Repr

/-- `getPriority` (revertCode.tsx lines 17-32): a `switch` on the blockchain
name with default `-99`. -/
def getPriority (blockchain : String) : Int :=
  match blockchain with
  | "Osmosis" => 100
  | "Ethereum" => 50
  | "Arbitrum" => 30
  | "Zilliqa" => 20
  | "Neo" => 20
  | _ => -99

/-- The filter predicate of lines 36-39:
`balancePriority > -99 && balance.amount > 0`. -/
def isValid (balance : WalletBalance) : Bool :=
  decide (getPriority balance.blockchain > -99) && decide (balance.amount > 0)

/-- `validBalances` (lines 36-39): `balances.filter(...)`. -/
def validBalances (balances : List WalletBalance) : List WalletBalance :=
  balances.filter isValid

/-- The sort comparator of lines 41-45:
`(lhs, rhs) => getPriority(rhs.blockchain) - getPriority(lhs.blockchain)`. -/
def comparator (lhs rhs : WalletBalance) : Int :=
  getPriority rhs.blockchain - getPriority lhs.blockchain

/-- The boolean order induced by `comparator`: a stable comparator sort keeps
`lhs` before `rhs` exactly when `comparator lhs rhs ≤ 0`, i.e. when the right
priority is at most the left priority (descending priority order). -/
def balanceLE (lhs rhs : WalletBalance) : Bool :=
  decide (getPriority rhs.blockchain ≤ getPriority lhs.blockchain)

/-- `sortedBalances` (lines 35-46): filter then stable sort by the
comparator. -/
def sortedBalances (balances : List WalletBalance) : List WalletBalance :=
  (validBalances balances).mergeSort balanceLE

/-- `formattedBalances` (lines 49-54): spread each balance and add the
`formatted` field (`fmt` models `Number.prototype.toLocaleString`). -/
def formattedBalances (fmt : ℚ → String) (balances : List WalletBalance) :
    List FormattedWalletBalance :=
  (sortedBalances balances).map
    (fun balance => { toWalletBalance := balance, formatted := fmt balance.amount })

/-- A JavaScript number that may be `NaN`. -/
inductive JSNum where
  | nan : JSNum
  | num : ℚ → JSNum
deriving DecidableEq, Repr

/-- Line 57: `prices[balance.currency] * balance.amount`.  An object lookup
that misses yields `undefined`, and `undefined * n` is `NaN` in JavaScript. -/
def jsMul (price : Option ℚ) (amount : ℚ) : JSNum :=
  match price with
  | none => JSNum.nan
  | some p => JSNum.num (p * amount)

/-- The props passed to `<WalletRow .../>` at lines 59-65. -/
structure WalletRow where
  className : String
  key : String
  amount : ℚ
  usdValue : JSNum
  formattedAmount : String
deriving DecidableEq, Repr

/-- One iteration of the `rows` map (lines 56-67): `usdValue` from the price
lookup, `key` from `balance.currency + balance.blockchain` (line 61). -/
def mkRow (prices : String → Option ℚ) (balance : FormattedWalletBalance) : WalletRow :=
  { className := "row"
  , key := balance.currency ++ balance.blockchain
  , amount := balance.amount
  , usdValue := jsMul (prices balance.currency) balance.amount
  , formattedAmount := balance.formatted }

/-- `rows` (lines 56-67): a second map over `formattedBalances`. -/
def rows (fmt : ℚ → String) (prices : String → Option ℚ)
    (balances : List WalletBalance) : List WalletRow :=
  (formattedBalances fmt balances).map (mkRow prices)

/-- Modelled from the spec (§4.3 "one `ProcessedRow` per input record, in a
single traversal"): the single fused map over the sorted/filtered sequence
that the spec describes, to be compared with the code's two-map `rows`. -/
def fusedRows (fmt : ℚ → String) (prices : String → Option ℚ)
    (balances : List WalletBalance) : List WalletRow :=
  (sortedBalances balances).map
    (fun balance => mkRow prices { toWalletBalance := balance, formatted := fmt balance.amount })

/-! ## Basic facts about the order -/

theorem balanceLE_trans (a b c : WalletBalance)
    (hab : balanceLE a b) (hbc : balanceLE b c) : balanceLE a c := by
  simp only [balanceLE, decide_eq_true_eq] at *
  exact le_trans hbc hab

theorem balanceLE_total (a b : WalletBalance) : balanceLE a b || balanceLE b a := by
  simp only [balanceLE, Bool.or_eq_true, decide_eq_true_eq]
  exact le_total (getPriority b.blockchain) (getPriority a.blockchain)

/-! ## The worked example of spec §8 -/

/-- C7 example record `{BTC, Ethereum, 2}`. -/
def recBTC : WalletBalance := { currency := "BTC", amount := 2, blockchain := "Ethereum" }

/-- C7 example record `{XYZ, Unknown, 5}`. -/
def recXYZ : WalletBalance := { currency := "XYZ", amount := 5, blockchain := "Unknown" }

/-- C7 example record `{ETH, Osmosis, 0}`. -/
def recETH : WalletBalance := { currency := "ETH", amount := 0, blockchain := "Osmosis" }

/-- C7 example record `{ATOM, Osmosis, 3}`. -/
def recATOM : WalletBalance := { currency := "ATOM", amount := 3, blockchain := "Osmosis" }

/-- Claim C7: on the spec's example input the pipeline keeps exactly ATOM
(priority 100) and BTC (priority 50) in that order, excluding XYZ (unknown
chain, sentinel priority) and ETH (amount 0). -/
theorem example_pipeline_output :
    sortedBalances [recBTC, recXYZ, recETH, recATOM] = [recATOM, recBTC] ∧
    getPriority recATOM.blockchain = 100 ∧
    getPriority recBTC.blockchain = 50 ∧
    getPriority recXYZ.blockchain = -99 ∧
    recETH.amount = 0 := by
  refine ⟨?_, rfl, rfl, rfl, rfl⟩
  show (validBalances [recBTC, recXYZ, recETH, recATOM]).mergeSort balanceLE = [recATOM, recBTC]
  have hv : validBalances [recBTC, recXYZ, recETH, recATOM] = [recBTC, recATOM] := by
    simp [validBalances, List.filter, isValid, recBTC, recXYZ, recETH, recATOM, getPriority]
  rw [hv]
  simp [List.mergeSort, List.splitInTwo, List.merge, balanceLE, recBTC, recATOM, getPriority]

/-- Claim C8: the priority resolver is a pure total function on strings that
maps the five known chains to their scores, everything else to the sentinel
`-99`, the sentinel is strictly below every legitimate score, and two calls
on equal inputs agree. -/
theorem getPriority_contract :
    getPriority "Osmosis" = 100 ∧
    getPriority "Ethereum" = 50 ∧
    getPriority "Arbitrum" = 30 ∧
    getPriority "Zilliqa" = 20 ∧
    getPriority "Neo" = 20 ∧
    (∀ s : String, s ≠ "Osmosis" → s ≠ "Ethereum" → s ≠ "Arbitrum" →
      s ≠ "Zilliqa" → s ≠ "Neo" → getPriority s = -99) ∧
    (∀ s : String, getPriority s = -99 ∨ (-99 : Int) < getPriority s) ∧
    (∀ s : String, getPriority s ≠ -99 → (-99 : Int) < getPriority s) ∧
    (∀ s t : String, s = t → getPriority s = getPriority t) := by
  refine ⟨rfl, rfl, rfl, rfl, rfl, ?_, ?_, ?_, ?_⟩
  · intro s h1 h2 h3 h4 h5
    unfold getPriority
    split <;> simp_all
  · intro s
    unfold getPriority
    split <;> simp
  · intro s h
    unfold getPriority at *
    split <;> simp_all
  · intro s t h
    rw [h]

/-- Closed witness for Claim C8's conditional parts at concrete inputs. -/
theorem getPriority_contract_witness :
    getPriority "Dogecoin" = -99 ∧
    (-99 : Int) < getPriority "Osmosis" ∧
    getPriority "BTC" = getPriority "BTC" :=
  ⟨getPriority_contract.2.2.2.2.2.1 "Dogecoin"
      (by decide) (by decide) (by decide) (by decide) (by decide),
   getPriority_contract.2.2.2.2.2.2.2.1 "Osmosis" (by decide),
   getPriority_contract.2.2.2.2.2.2.2.2 "BTC" "BTC" rfl⟩

/-! ## Validity of the output (C3) -/

theorem mem_sortedBalances_iff (balances : List WalletBalance) (b : WalletBalance) :
    b ∈ sortedBalances balances ↔ b ∈ balances ∧ isValid b := by
  unfold sortedBalances validBalances
  rw [List.mem_mergeSort, List.mem_filter]

/-- Claim C3: every output row of the pipeline is built from an input record
with priority above the sentinel and strictly positive amount; empty input
and all-invalid input yield an empty output. -/
theorem rows_only_valid (fmt : ℚ → String) (prices : String → Option ℚ) :
    (∀ balances row, row ∈ rows fmt prices balances →
      ∃ b, b ∈ balances ∧ getPriority b.blockchain > -99 ∧ b.amount > 0 ∧
        row = mkRow prices { toWalletBalance := b, formatted := fmt b.amount }) ∧
    rows fmt prices [] = [] ∧
    (∀ balances,
      (∀ b, b ∈ balances → ¬(getPriority b.blockchain > -99 ∧ b.amount > 0)) →
      rows fmt prices balances = []) := by
  refine ⟨?_, ?_, ?_⟩
  · intro balances row hrow
    unfold rows formattedBalances at hrow
    rw [List.map_map, List.mem_map] at hrow
    obtain ⟨b, hb, hrow⟩ := hrow
    rw [mem_sortedBalances_iff] at hb
    have hv := hb.2
    simp only [isValid, Bool.and_eq_true, decide_eq_true_eq] at hv
    exact ⟨b, hb.1, hv.1, hv.2, hrow.symm⟩
  · simp [rows, formattedBalances, sortedBalances, validBalances]
  · intro balances hall
    have hnil : validBalances balances = [] := by
      rw [validBalances, List.filter_eq_nil_iff]
      intro b hb
      simp only [isValid, Bool.and_eq_true, decide_eq_true_eq]
      exact fun hc => hall b hb hc
    simp [rows, formattedBalances, sortedBalances, hnil]

/-- Closed witness for Claim C3: the two conditional parts applied at the
concrete inputs `[recATOM]` (one valid record) and `[recXYZ]` (all
invalid). -/
theorem rows_only_valid_witness :
    (∃ b, b ∈ [recATOM] ∧ getPriority b.blockchain > -99 ∧ b.amount > 0 ∧
      mkRow (fun _ => none) { toWalletBalance := recATOM, formatted := "" } =
        mkRow (fun _ => none) { toWalletBalance := b, formatted := "" }) ∧
    rows (fun _ => "") (fun _ => none) [recXYZ] = [] := by
  constructor
  · obtain ⟨b, hb, h1, h2, h3⟩ :=
      (rows_only_valid (fun _ => "") (fun _ => none)).1 [recATOM]
        (mkRow (fun _ => none) { toWalletBalance := recATOM, formatted := "" })
        (by simp [rows, formattedBalances, sortedBalances, validBalances, List.filter,
              recATOM, isValid, getPriority])
    exact ⟨b, hb, h1, h2, h3⟩
  · exact (rows_only_valid (fun _ => "") (fun _ => none)).2.2 [recXYZ]
      (by intro b hb; simp only [List.mem_singleton] at hb; subst hb; decide)

/-! ## Ordering and stability (C4) -/

/-- Claim C4: the output is pairwise sorted by descending priority, and for
every priority value the subsequence of output records carrying that priority
equals the subsequence of surviving input records carrying it (stability:
equal-priority records keep their relative input order, since `validBalances`
is the order-preserving filter of the input). -/
theorem sortedBalances_sorted_stable (balances : List WalletBalance) :
    List.Pairwise
      (fun a b => getPriority b.blockchain ≤ getPriority a.blockchain)
      (sortedBalances balances) ∧
    (∀ p : Int,
      (sortedBalances balances).filter (fun b => getPriority b.blockchain == p) =
        (validBalances balances).filter (fun b => getPriority b.blockchain == p)) ∧
    validBalances balances = balances.filter isValid := by
  refine ⟨?_, ?_, rfl⟩
  · have h := List.sorted_mergeSort balanceLE_trans balanceLE_total (validBalances balances)
    exact h.imp (fun hab => by simpa [balanceLE] using hab)
  · intro p
    set c := (validBalances balances).filter (fun b => getPriority b.blockchain == p) with hc
    have hmemc : ∀ b, b ∈ c → getPriority b.blockchain = p := by
      intro b hb
      rw [hc, List.mem_filter] at hb
      exact beq_iff_eq.mp hb.2
    have hpair : List.Pairwise (fun a b => balanceLE a b = true) c := by
      apply List.pairwise_of_forall_mem_list
      intro a ha b hb
      simp only [balanceLE, decide_eq_true_eq, hmemc a ha, hmemc b hb, le_refl]
    have hsub : List.Sublist c (validBalances balances) := List.filter_sublist _
    have hsub2 : List.Sublist c (sortedBalances balances) :=
      List.sublist_mergeSort balanceLE_trans balanceLE_total hpair hsub
    have hsub3 : List.Sublist c
        ((sortedBalances balances).filter (fun b => getPriority b.blockchain == p)) := by
      have := List.Sublist.filter (fun b => getPriority b.blockchain == p) hsub2
      rwa [List.filter_eq_self.mpr (fun b hb => beq_iff_eq.mpr (hmemc b hb))] at this
    have hperm : List.Perm (sortedBalances balances) (validBalances balances) :=
      List.mergeSort_perm (validBalances balances) balanceLE
    have hlen :
        ((sortedBalances balances).filter (fun b => getPriority b.blockchain == p)).length
          = c.length := by
      rw [hc]
      exact (hperm.filter (fun b => getPriority b.blockchain == p)).length_eq
    exact (List.Sublist.eq_of_length hsub3 hlen.symm).symm

/-! ## Price independence (C2) -/

/-- The price-independent components of a produced row: everything except
`usdValue`. -/
def eraseUsd (r : WalletRow) : String × String × ℚ × String :=
  (r.className, r.key, r.amount, r.formattedAmount)

/-- Claim C2: replacing the price mapping and leaving the records unchanged
preserves the number of rows, their order, their keys, their amounts and
their formatted amounts; only `usdValue` can differ. -/
theorem rows_price_independent (fmt : ℚ → String) (p1 p2 : String → Option ℚ)
    (balances : List WalletBalance) :
    (rows fmt p1 balances).map eraseUsd = (rows fmt p2 balances).map eraseUsd ∧
    (rows fmt p1 balances).length = (rows fmt p2 balances).length := by
  constructor
  · unfold rows
    rw [List.map_map, List.map_map]
    rfl
  · simp [rows]

/-! ## Single fused traversal (C6) -/

/-- Claim C6: the two maps of the format+project stage are extensionally the
single fused map `fusedRows` over the sorted/filtered sequence, producing
exactly one row per surviving record. -/
theorem rows_eq_fusedRows (fmt : ℚ → String) (prices : String → Option ℚ)
    (balances : List WalletBalance) :
    rows fmt prices balances = fusedRows fmt prices balances ∧
    (rows fmt prices balances).length = (sortedBalances balances).length := by
  constructor
  · unfold rows fusedRows formattedBalances
    rw [List.map_map]
    rfl
  · simp [rows, formattedBalances]

/-! ## Frame property of the two projection stages (C9) -/

/-- The five chain names with a non-sentinel priority. -/
def knownChains : List String := ["Osmosis", "Ethereum", "Arbitrum", "Zilliqa", "Neo"]

theorem mem_knownChains_of_valid (b : String) (h : getPriority b > -99) :
    b ∈ knownChains := by
  unfold getPriority at h
  split at h <;> simp_all [knownChains]

/-- If two concatenations agree, one right part is a suffix of the other. -/
theorem suffix_of_append_eq_append {α : Type} (l1 : List α) :
    ∀ (l2 s1 s2 : List α), l1 ++ s1 = l2 ++ s2 →
      List.IsSuffix s1 s2 ∨ List.IsSuffix s2 s1 := by
  induction l1 with
  | nil =>
    intro l2 s1 s2 h
    exact Or.inr ⟨l2, h.symm⟩
  | cons a l1 ih =>
    intro l2 s1 s2 h
    cases l2 with
    | nil =>
      exact Or.inl ⟨a :: l1, by simpa using h⟩
    | cons b l2 =>
      simp only [List.cons_append, List.cons.injEq] at h
      exact ih l2 s1 s2 h.2

/-- No known chain name is a proper suffix of another known chain name. -/
theorem knownChains_suffix_disjoint :
    ∀ b1 ∈ knownChains, ∀ b2 ∈ knownChains,
      List.IsSuffix b1.data b2.data → b1 = b2 := by decide

theorem string_eq_of_data {s t : String} (h : s.data = t.data) : s = t := by
  cases s; cases t; simp_all

/-- For records surviving the filter, the JSX `key` (line 61) determines both
`currency` and `blockchain`: the five valid chain names are never suffixes of
one another, so the concatenation can be split back uniquely. -/
theorem key_determines_identity (b1 b2 : WalletBalance)
    (h1 : getPriority b1.blockchain > -99) (h2 : getPriority b2.blockchain > -99)
    (hk : b1.currency ++ b1.blockchain = b2.currency ++ b2.blockchain) :
    b1.currency = b2.currency ∧ b1.blockchain = b2.blockchain := by
  have hm1 := mem_knownChains_of_valid _ h1
  have hm2 := mem_knownChains_of_valid _ h2
  have hd : b1.currency.data ++ b1.blockchain.data
      = b2.currency.data ++ b2.blockchain.data := by
    have hdata := congrArg String.data hk
    simpa [String.data_append] using hdata
  have hbb : b1.blockchain = b2.blockchain := by
    rcases suffix_of_append_eq_append _ _ _ _ hd with h | h
    · exact knownChains_suffix_disjoint _ hm1 _ hm2 h
    · exact (knownChains_suffix_disjoint _ hm2 _ hm1 h).symm
  have hcc : b1.currency.data = b2.currency.data :=
    (List.append_inj' hd (by rw [hbb])).1
  exact ⟨string_eq_of_data hcc, hbb⟩

/-- Claim C9: the formatting stage carries each surviving record unchanged
(only adding `formatted`), and the row stage carries `amount` and the
formatted string unchanged while fusing `currency` and `blockchain` into the
`key`, from which both are uniquely recoverable for surviving records. -/
theorem rows_frame_property (fmt : ℚ → String) (prices : String → Option ℚ)
    (balances : List WalletBalance) :
    (∀ fb, fb ∈ formattedBalances fmt balances →
      fb.toWalletBalance ∈ sortedBalances balances ∧ fb.formatted = fmt fb.amount) ∧
    (∀ fb : FormattedWalletBalance,
      (mkRow prices fb).amount = fb.amount ∧
      (mkRow prices fb).formattedAmount = fb.formatted ∧
      (mkRow prices fb).key = fb.currency ++ fb.blockchain) ∧
    (∀ b1 b2 : WalletBalance,
      getPriority b1.blockchain > -99 → getPriority b2.blockchain > -99 →
      b1.currency ++ b1.blockchain = b2.currency ++ b2.blockchain →
      b1.currency = b2.currency ∧ b1.blockchain = b2.blockchain) := by
  refine ⟨?_, ?_, key_determines_identity⟩
  · intro fb hfb
    unfold formattedBalances at hfb
    rw [List.mem_map] at hfb
    obtain ⟨b, hb, hfb⟩ := hfb
    subst hfb
    exact ⟨hb, rfl⟩
  · intro fb
    exact ⟨rfl, rfl, rfl⟩

/-- Closed witness for Claim C9 at concrete inputs. -/
theorem rows_frame_property_witness :
    ({ toWalletBalance := recATOM, formatted := "3" } :
        FormattedWalletBalance).toWalletBalance ∈ sortedBalances [recATOM] ∧
    (recATOM.currency = recATOM.currency ∧ recATOM.blockchain = recATOM.blockchain) := by
  constructor
  · exact ((rows_frame_property (fun _ => "3") (fun _ => none) [recATOM]).1
      { toWalletBalance := recATOM, formatted := "3" }
      (by simp [formattedBalances, sortedBalances, validBalances, List.filter,
            recATOM, isValid, getPriority])).1
  · exact (rows_frame_property (fun _ => "3") (fun _ => none) [recATOM]).2.2
      recATOM recATOM (by decide) (by decide) rfl

/-! ## Missing price handling (C1) -/

/-- Claim C1 counterexample: on the concrete input `[{BTC, Ethereum, 2}]`
with a price lookup that has no entry for "BTC", the produced row's
`usdValue` is `NaN` (JavaScript `undefined * 2`), contradicting the claim
that it is an explicit unknown marker and "not NaN". -/
theorem missing_price_gives_nan :
    (rows (fun _ => "2") (fun _ => none) [recBTC]).map WalletRow.usdValue
      = [JSNum.nan] ∧
    JSNum.nan ≠ JSNum.num 0 := by
  constructor
  · simp [rows, formattedBalances, sortedBalances, validBalances, List.filter,
      recBTC, isValid, getPriority, mkRow, jsMul]
  · simp

/-- Claim C1 (amended): a record whose currency is missing from the price
lookup yields a row whose `usdValue` is `NaN` — never the number `0`, and not
an explicit unknown marker — and every row depends only on its own record and
its own currency's price entry, so the rest of the batch is unaffected. -/
theorem missing_price_nan_isolated (prices : String → Option ℚ) :
    (∀ fb : FormattedWalletBalance, prices fb.currency = none →
      (mkRow prices fb).usdValue = JSNum.nan ∧
      ∀ q : ℚ, (mkRow prices fb).usdValue ≠ JSNum.num q) ∧
    (∀ p2 : String → Option ℚ, ∀ fb : FormattedWalletBalance,
      prices fb.currency = p2 fb.currency → mkRow prices fb = mkRow p2 fb) := by
  constructor
  · intro fb hmiss
    constructor
    · simp [mkRow, jsMul, hmiss]
    · intro q
      simp [mkRow, jsMul, hmiss]
  · intro p2 fb hagree
    simp [mkRow, jsMul, hagree]

/-- Closed witness for Claim C1 (amended) at a concrete input. -/
theorem missing_price_nan_isolated_witness :
    (mkRow (fun _ => none) { toWalletBalance := recBTC, formatted := "2" }).usdValue
      = JSNum.nan ∧
    mkRow (fun _ => none) { toWalletBalance := recBTC, formatted := "2" }
      = mkRow (fun _ => none) { toWalletBalance := recBTC, formatted := "2" } :=
  ⟨((missing_price_nan_isolated (fun _ => none)).1
      { toWalletBalance := recBTC, formatted := "2" } rfl).1,
   (missing_price_nan_isolated (fun _ => none)).2 (fun _ => none)
      { toWalletBalance := recBTC, formatted := "2" } rfl⟩

/-! ## Resolver call counting in the filter+sort stage (C5)

The claim says each record's priority is resolved exactly once, into a
decorated value, before sorting.  The code instead calls `getPriority` once
per record inside the filter predicate (line 37) and twice more on every
comparator invocation (lines 42-43).  The instrumented functions below count
resolver invocations; the sort is the same top-down stable merge sort used as
the model of `Array.prototype.sort` (its result is proved equal to
`List.mergeSort` below). -/

/-- `merge` instrumented with the number of comparator invocations. -/
def mergeCount {α : Type} (le : α → α → Bool) : List α → List α → List α × Nat
  | [], ys => (ys, 0)
  | x :: xs, [] => (x :: xs, 0)
  | x :: xs, y :: ys =>
    if le x y then
      let p := mergeCount le xs (y :: ys)
      (x :: p.1, p.2 + 1)
    else
      let p := mergeCount le (x :: xs) ys
      (y :: p.1, p.2 + 1)
termination_by xs ys => xs.length + ys.length

/-- Top-down merge sort instrumented with the number of comparator
invocations; it splits exactly like `List.mergeSort`. -/
def mergeSortCount {α : Type} (le : α → α → Bool) : (l : List α) → List α × Nat
  | [] => ([], 0)
  | [a] => ([a], 0)
  | a :: b :: rest =>
    let lr := List.splitInTwo ⟨a :: b :: rest, rfl⟩
    let s1 := mergeSortCount le lr.1.1
    let s2 := mergeSortCount le lr.2.1
    let m := mergeCount le s1.1 s2.1
    (m.1, s1.2 + s2.2 + m.2)
termination_by l => l.length
decreasing_by
  · simp [List.splitInTwo_fst]; omega
  · simp [List.splitInTwo_snd]; omega

/-- The filter of lines 36-39 instrumented with resolver calls: the predicate
computes `getPriority(balance.blockchain)` once for every record. -/
def validBalancesCount : List WalletBalance → List WalletBalance × Nat
  | [] => ([], 0)
  | b :: rest =>
    let p := validBalancesCount rest
    (if isValid b then b :: p.1 else p.1, p.2 + 1)

/-- Every comparator invocation (lines 42-43) resolves both priorities. -/
def resolverCallsPerComparison : Nat := 2

/-- Total `getPriority` invocations in one run of lines 35-46: one per record
in the filter plus two per comparator call in the sort. -/
def sortStageResolverCalls (balances : List WalletBalance) : Nat :=
  (validBalancesCount balances).2
    + resolverCallsPerComparison
        * (mergeSortCount balanceLE (validBalancesCount balances).1).2

theorem validBalancesCount_fst (balances : List WalletBalance) :
    (validBalancesCount balances).1 = validBalances balances := by
  induction balances with
  | nil => rfl
  | cons b rest ih =>
    simp only [validBalancesCount, validBalances, List.filter_cons]
    split <;> simp_all [validBalances]

theorem mergeCount_fst {α : Type} (le : α → α → Bool) :
    ∀ xs ys : List α, (mergeCount le xs ys).1 = List.merge xs ys le
  | [], ys => by simp [mergeCount]
  | x :: xs, [] => by simp [mergeCount]
  | x :: xs, y :: ys => by
    rw [List.cons_merge_cons]
    simp only [mergeCount]
    split
    · simp [mergeCount_fst le xs (y :: ys)]
    · simp [mergeCount_fst le (x :: xs) ys]
termination_by xs ys => xs.length + ys.length

/-- The instrumented sort computes the same list as the model sort. -/
theorem mergeSortCount_fst {α : Type} (le : α → α → Bool) :
    ∀ l : List α, (mergeSortCount le l).1 = l.mergeSort le
  | [] => by simp [mergeSortCount]
  | [a] => by simp [mergeSortCount]
  | a :: b :: rest => by
    rw [List.mergeSort]
    simp only [mergeSortCount]
    rw [mergeCount_fst, mergeSortCount_fst le _, mergeSortCount_fst le _]
termination_by l => l.length
decreasing_by
  · simp [List.splitInTwo_fst]; omega
  · simp [List.splitInTwo_snd]; omega

/-- Claim C5 refutation, evaluated at the two-record input
`[recBTC, recATOM]`: the filter+sort stage resolves priorities four times —
once per record in the filter and twice inside the single comparator call the
sort makes — not "exactly once per record, never inside the comparator",
which would give two.  The instrumented sort agrees with the model sort. -/
theorem resolver_called_inside_comparator :
    sortStageResolverCalls [recBTC, recATOM] = 4 ∧
    (validBalancesCount [recBTC, recATOM]).2 = 2 ∧
    (mergeSortCount balanceLE (validBalancesCount [recBTC, recATOM]).1).2 = 1 ∧
    (mergeSortCount balanceLE (validBalancesCount [recBTC, recATOM]).1).1
      = sortedBalances [recBTC, recATOM] := by
  have hv : validBalancesCount [recBTC, recATOM] = ([recBTC, recATOM], 2) := by
    simp [validBalancesCount, isValid, recBTC, recATOM, getPriority]
  have hsort : mergeSortCount balanceLE [recBTC, recATOM] = ([recATOM, recBTC], 1) := by
    simp [mergeSortCount, mergeCount, List.splitInTwo, balanceLE, recBTC, recATOM,
      getPriority]
  refine ⟨?_, ?_, ?_, ?_⟩
  · simp [sortStageResolverCalls, hv, hsort, resolverCallsPerComparison]
  · rw [hv]
  · rw [hv, hsort]
  · rw [hv, hsort]
    rw [show sortedBalances [recBTC, recATOM]
          = (validBalances [recBTC, recATOM]).mergeSort balanceLE from rfl]
    have hvb : validBalances [recBTC, recATOM] = [recBTC, recATOM] := by
      simp [validBalances, List.filter, isValid, recBTC, recATOM, getPriority]
    rw [hvb]
    simp [List.mergeSort, List.splitInTwo, List.merge, balanceLE, recBTC, recATOM,
      getPriority]

/-! ## Currency-swap exchange-rate effect (App.tsx lines 50-60) -/

/-- `interface Token` (App.tsx lines 4-8). -/
structure Token where
  currency : String
  date : String
  price : ℚ
deriving DecidableEq, Repr

/-- `tokens.find((t) => t.currency === cur)?.price` (App.tsx lines 52-53):
the price of the first token with the given currency, or `undefined`. -/
def findPrice (tokens : List Token) (cur : String) : Option ℚ :=
  (tokens.find? (fun t => t.currency == cur)).map Token.price

/-- `Number(x.toFixed(6))` (line 55): decimal rounding to six fractional
digits with ties rounded up, idealized over `ℚ`. -/
def toFixed6 (q : ℚ) : ℚ := ((round (q * 1000000) : ℤ) : ℚ) / 1000000

/-- The effect body of App.tsx lines 50-60, as a function from the previous
`exchangeRate` state to the next one.  JavaScript truthiness: the outer guard
`fromToken && toToken` holds for non-empty strings and otherwise leaves the
state untouched; the inner guard `fromPrice && toPrice` fails when either
lookup is `undefined` or its price is `0`, setting the rate to `null`. -/
def computeExchangeRate (tokens : List Token) (fromToken toToken : String)
    (exchangeRate : Option ℚ) : Option ℚ :=
  if fromToken ≠ "" ∧ toToken ≠ "" then
    match findPrice tokens fromToken, findPrice tokens toToken with
    | some fromPrice, some toPrice =>
      if fromPrice ≠ 0 ∧ toPrice ≠ 0 then some (toFixed6 (fromPrice / toPrice))
      else none
    | _, _ => none
  else exchangeRate

/-- Claim C10: with both tokens selected, the exchange rate becomes the
6-decimal rounding of `fromPrice / toPrice` when both lookups find a nonzero
price, and `null` in every other case — in particular a listed price of
exactly `0` yields `null`, indistinguishable from a missing price. -/
theorem exchangeRate_characterization (tokens : List Token)
    (fromToken toToken : String) (prev : Option ℚ)
    (hf : fromToken ≠ "") (ht : toToken ≠ "") :
    (∀ fp tp : ℚ, findPrice tokens fromToken = some fp →
      findPrice tokens toToken = some tp → fp ≠ 0 → tp ≠ 0 →
      computeExchangeRate tokens fromToken toToken prev
        = some (toFixed6 (fp / tp))) ∧
    ((findPrice tokens fromToken = none ∨ findPrice tokens toToken = none ∨
      findPrice tokens fromToken = some 0 ∨ findPrice tokens toToken = some 0) →
      computeExchangeRate tokens fromToken toToken prev = none) := by
  constructor
  · intro fp tp hfp htp hfp0 htp0
    simp [computeExchangeRate, hf, ht, hfp, htp, hfp0, htp0]
  · intro h
    cases hfp : findPrice tokens fromToken with
    | none => simp [computeExchangeRate, hf, ht, hfp]
    | some fp =>
      cases htp : findPrice tokens toToken with
      | none => simp [computeExchangeRate, hf, ht, hfp, htp]
      | some tp =>
        have hgoal : computeExchangeRate tokens fromToken toToken prev
            = if fp ≠ 0 ∧ tp ≠ 0 then some (toFixed6 (fp / tp)) else none := by
          simp [computeExchangeRate, hf, ht, hfp, htp]
        rcases h with h | h | h | h
        · simp [hfp] at h
        · simp [htp] at h
        · rw [hfp] at h
          rw [hgoal, if_neg]
          intro hc
          exact hc.1 (Option.some.inj h)
        · rw [htp] at h
          rw [hgoal, if_neg]
          intro hc
          exact hc.2 (Option.some.inj h)

/-- Closed witness for Claim C10 at concrete token lists: a normal rate, and
a zero-price token yielding `null` exactly like a missing one. -/
theorem exchangeRate_characterization_witness :
    computeExchangeRate
      [{ currency := "ETH", date := "2024-01-01", price := 2 },
       { currency := "BTC", date := "2024-01-01", price := 4 }] "ETH" "BTC" none
      = some (toFixed6 (2 / 4)) ∧
    computeExchangeRate
      [{ currency := "ETH", date := "2024-01-01", price := 0 },
       { currency := "BTC", date := "2024-01-01", price := 4 }] "ETH" "BTC" none
      = none ∧
    computeExchangeRate
      [{ currency := "BTC", date := "2024-01-01", price := 4 }] "ETH" "BTC" none
      = none := by
  refine ⟨?_, ?_, ?_⟩
  · exact (exchangeRate_characterization
      [{ currency := "ETH", date := "2024-01-01", price := 2 },
       { currency := "BTC", date := "2024-01-01", price := 4 }] "ETH" "BTC" none
      (by decide) (by decide)).1 2 4 rfl rfl (by decide) (by decide)
  · exact (exchangeRate_characterization
      [{ currency := "ETH", date := "2024-01-01", price := 0 },
       { currency := "BTC", date := "2024-01-01", price := 4 }] "ETH" "BTC" none
      (by decide) (by decide)).2 (Or.inr (Or.inr (Or.inl rfl)))
  · exact (exchangeRate_characterization
      [{ currency := "BTC", date := "2024-01-01", price := 4 }] "ETH" "BTC" none
      (by decide) (by decide)).2 (Or.inl rfl)
